import Mathlib

/-!
Verification of the core ingestion and namespacing utilities of the
`transit_model` repository, against its natural-language specification.

The development shallowly embeds the Rust sources:
  * `src/netex_france/modes.rs` — mode classification (`NetexMode`),
  * `src/add_prefix.rs` — identifier namespacing (the `AddPrefix` capability),
  * `src/read_utils.rs` — uniform file source, typed record readers,
    identified-collection builders and the configuration loader.

File contents become explicit values (byte lists), fallible operations return
`Except`, logging side effects become explicit lists of emitted messages, and
`HashMap`/`BTreeMap` values become association lists with the collection
semantics (last-wins insertion) modelled explicitly.
-/

set_option autoImplicit false

namespace TransitModel

/-! ## Mode classification (`src/netex_france/modes.rs`) -/

/-- The `NetexMode` enumeration.  The Rust source assigns explicit
discriminants `Air = 1, …, Bus = 9`; the derived `Ord` instance orders by
discriminant, which we capture with `NetexMode.priority` below. -/
inductive NetexMode where
  | Air
  | Water
  | Rail
  | Metro
  | Tram
  | Funicular
  | Cableway
  | Coach
  | Bus
  deriving DecidableEq, Repr, Fintype

/-- Numeric discriminant of each `NetexMode` constructor, exactly as assigned
in the Rust `enum` (`Air = 1` through `Bus = 9`).  The derived Rust `Ord`
compares these values; lower value means higher priority. -/
def NetexMode.priority : NetexMode → Nat
  | .Air => 1
  | .Water => 2
  | .Rail => 3
  | .Metro => 4
  | .Tram => 5
  | .Funicular => 6
  | .Cableway => 7
  | .Coach => 8
  | .Bus => 9

/-- The warning message emitted by `from_physical_mode_id` for an unsupported
physical mode label. -/
def unsupportedModeWarning (mode : String) : String :=
  "Physical Mode '" ++ mode ++ "' is not supported for NeTEx France export."

/-- Embedding of `NetexMode::from_physical_mode_id`.  A Rust `match` on string
literals is a sequence of equality tests, rendered here as a chain of `if`s.
The second component is the list of warnings emitted (the fallback arm logs
one warning naming the label). -/
def NetexMode.from_physical_mode_id (physical_mode_id : String) :
    Option NetexMode × List String :=
  if physical_mode_id = "Air" then (some .Air, [])
  else if physical_mode_id = "Boat" then (some .Water, [])
  else if physical_mode_id = "Bus" then (some .Bus, [])
  else if physical_mode_id = "BusRapidTransit" then (some .Bus, [])
  else if physical_mode_id = "Coach" then (some .Coach, [])
  else if physical_mode_id = "Ferry" then (some .Water, [])
  else if physical_mode_id = "Funicular" then (some .Funicular, [])
  else if physical_mode_id = "LocalTrain" then (some .Rail, [])
  else if physical_mode_id = "LongDistanceTrain" then (some .Rail, [])
  else if physical_mode_id = "Metro" then (some .Metro, [])
  else if physical_mode_id = "RapidTransit" then (some .Rail, [])
  else if physical_mode_id = "RailShuttle" then (some .Rail, [])
  else if physical_mode_id = "Shuttle" then (some .Bus, [])
  else if physical_mode_id = "SuspendedCableCar" then (some .Cableway, [])
  else if physical_mode_id = "Train" then (some .Rail, [])
  else if physical_mode_id = "Tramway" then (some .Tram, [])
  else (none, [unsupportedModeWarning physical_mode_id])

/-- The closed set of physical-mode labels recognised by
`from_physical_mode_id` (the non-fallback arms of the `match`). -/
def knownPhysicalModes : List String :=
  ["Air", "Boat", "Bus", "BusRapidTransit", "Coach", "Ferry", "Funicular",
   "LocalTrain", "LongDistanceTrain", "Metro", "RapidTransit", "RailShuttle",
   "Shuttle", "SuspendedCableCar", "Train", "Tramway"]

/-- Insertion into a `BTreeSet<NetexMode>`: keep the list strictly sorted by
the `Ord` order (the discriminant), ignoring an element already present. -/
def NetexMode.btreeInsert (m : NetexMode) : List NetexMode → List NetexMode
  | [] => [m]
  | x :: xs =>
    if m.priority < x.priority then m :: x :: xs
    else if m.priority = x.priority then x :: xs
    else x :: NetexMode.btreeInsert m xs

/-- Build a `BTreeSet<NetexMode>` from a sequence of insertions. -/
def mkBTreeSet (l : List NetexMode) : List NetexMode :=
  l.foldl (fun s m => NetexMode.btreeInsert m s) []

/-- Embedding of `NetexMode::calculate_highest_mode`: since the `BTreeSet` is
ordered, the first element of its iteration is the highest-priority mode. -/
def NetexMode.calculate_highest_mode (netex_modes : List NetexMode) :
    Option NetexMode :=
  netex_modes.head?

/-! Auxiliary lemmas about `btreeInsert` and `mkBTreeSet`. -/

theorem btreeInsert_ne_nil (m : NetexMode) (s : List NetexMode) :
    NetexMode.btreeInsert m s ≠ [] := by
  cases s with
  | nil => simp [NetexMode.btreeInsert]
  | cons x xs =>
    simp only [NetexMode.btreeInsert]
    split
    · simp
    · split <;> simp

theorem mem_btreeInsert_of_mem {x : NetexMode} {s : List NetexMode}
    (m : NetexMode) (hx : x ∈ s) : x ∈ NetexMode.btreeInsert m s := by
  induction s with
  | nil => cases hx
  | cons y ys ih =>
    simp only [NetexMode.btreeInsert]
    rcases List.mem_cons.mp hx with h | h
    · split
      · simp [h]
      · split <;> simp [h]
    · split
      · simp [List.mem_cons.mpr (Or.inr h)]
      · split
        · simp [List.mem_cons.mpr (Or.inr h)]
        · exact List.mem_cons.mpr (Or.inr (ih h))

theorem priority_injective : ∀ a b : NetexMode,
    a.priority = b.priority → a = b := by decide

theorem self_mem_btreeInsert (m : NetexMode) (s : List NetexMode) :
    m ∈ NetexMode.btreeInsert m s := by
  induction s with
  | nil => simp [NetexMode.btreeInsert]
  | cons y ys ih =>
    simp only [NetexMode.btreeInsert]
    split
    · simp
    · rename_i h1
      split
      · rename_i h2
        have : m = y := priority_injective _ _ h2
        simp [this]
      · exact List.mem_cons.mpr (Or.inr ih)

theorem mem_btreeInsert {z m : NetexMode} {s : List NetexMode}
    (hz : z ∈ NetexMode.btreeInsert m s) : z = m ∨ z ∈ s := by
  induction s with
  | nil => simpa [NetexMode.btreeInsert] using hz
  | cons y ys ih =>
    simp only [NetexMode.btreeInsert] at hz
    split at hz
    · rcases List.mem_cons.mp hz with h | h
      · exact .inl h
      · exact .inr h
    · split at hz
      · exact .inr hz
      · rcases List.mem_cons.mp hz with h | h
        · exact .inr (List.mem_cons.mpr (.inl h))
        · rcases ih h with h' | h'
          · exact .inl h'
          · exact .inr (List.mem_cons.mpr (.inr h'))

theorem sorted_btreeInsert (m : NetexMode) (s : List NetexMode)
    (hs : s.Pairwise (fun a b => a.priority < b.priority)) :
    (NetexMode.btreeInsert m s).Pairwise (fun a b => a.priority < b.priority) := by
  induction s with
  | nil => simp [NetexMode.btreeInsert]
  | cons y ys ih =>
    rcases List.pairwise_cons.mp hs with ⟨hy, hys⟩
    simp only [NetexMode.btreeInsert]
    split
    · rename_i hlt
      refine List.pairwise_cons.mpr ⟨?_, hs⟩
      intro z hz
      rcases List.mem_cons.mp hz with h | h
      · simpa [h] using hlt
      · exact lt_trans hlt (hy z h)
    · rename_i hge
      split
      · exact hs
      · rename_i hne
        refine List.pairwise_cons.mpr ⟨?_, ih hys⟩
        intro z hz
        rcases mem_btreeInsert hz with h | h
        · subst h
          omega
        · exact hy z h

theorem foldIns_ne_nil (l : List NetexMode) (s : List NetexMode) (hs : s ≠ []) :
    l.foldl (fun t m => NetexMode.btreeInsert m t) s ≠ [] := by
  induction l generalizing s with
  | nil => simpa using hs
  | cons x xs ih =>
    simp only [List.foldl_cons]
    exact ih _ (btreeInsert_ne_nil x s)

theorem mem_foldIns_acc {x : NetexMode} {l : List NetexMode}
    {s : List NetexMode} (hx : x ∈ s) :
    x ∈ l.foldl (fun t m => NetexMode.btreeInsert m t) s := by
  induction l generalizing s with
  | nil => simpa using hx
  | cons y ys ih =>
    simp only [List.foldl_cons]
    exact ih (mem_btreeInsert_of_mem y hx)

theorem mem_foldIns_of_mem {x : NetexMode} {l : List NetexMode}
    (s : List NetexMode) (hx : x ∈ l) :
    x ∈ l.foldl (fun t m => NetexMode.btreeInsert m t) s := by
  induction l generalizing s with
  | nil => cases hx
  | cons y ys ih =>
    simp only [List.foldl_cons]
    rcases List.mem_cons.mp hx with h | h
    · subst h
      exact mem_foldIns_acc (self_mem_btreeInsert x s)
    · exact ih _ h

theorem sorted_foldIns (l : List NetexMode) (s : List NetexMode)
    (hs : s.Pairwise (fun a b => a.priority < b.priority)) :
    (l.foldl (fun t m => NetexMode.btreeInsert m t) s).Pairwise
      (fun a b => a.priority < b.priority) := by
  induction l generalizing s with
  | nil => simpa using hs
  | cons x xs ih =>
    simp only [List.foldl_cons]
    exact ih _ (sorted_btreeInsert x s hs)

theorem mkBTreeSet_sorted (l : List NetexMode) :
    (mkBTreeSet l).Pairwise (fun a b => a.priority < b.priority) :=
  sorted_foldIns l [] (by simp)

theorem mem_mkBTreeSet_of_mem {x : NetexMode} {l : List NetexMode}
    (hx : x ∈ l) : x ∈ mkBTreeSet l :=
  mem_foldIns_of_mem [] hx

theorem mkBTreeSet_eq_nil_iff (l : List NetexMode) :
    mkBTreeSet l = [] ↔ l = [] := by
  constructor
  · intro h
    cases l with
    | nil => rfl
    | cons x xs =>
      refine absurd ?_ (foldIns_ne_nil xs (NetexMode.btreeInsert x [])
        (btreeInsert_ne_nil x []))
      simpa [mkBTreeSet] using h
  · intro h
    simp [h, mkBTreeSet]

/-- Claim C8: `calculate_highest_mode` returns the highest-priority mode of
its input set according to the enumeration's total order (lower numeric
priority value wins): on the set built from Bus, Rail and Air it returns Air,
on the set built from Funicular and Cableway it returns Funicular, and it
returns `none` if and only if the input set is empty; moreover any mode it
returns has minimal priority value among all inserted modes. -/
theorem calculate_highest_mode_spec :
    NetexMode.calculate_highest_mode (mkBTreeSet [.Bus, .Rail, .Air]) = some .Air ∧
    NetexMode.calculate_highest_mode (mkBTreeSet [.Funicular, .Cableway]) = some .Funicular ∧
    (∀ l : List NetexMode,
      (NetexMode.calculate_highest_mode (mkBTreeSet l) = none ↔ l = [])) ∧
    (∀ (l : List NetexMode) (h : NetexMode),
      NetexMode.calculate_highest_mode (mkBTreeSet l) = some h →
      ∀ m ∈ l, h.priority ≤ m.priority) := by
  refine ⟨by decide, by decide, ?_, ?_⟩
  · intro l
    rw [show (NetexMode.calculate_highest_mode (mkBTreeSet l) = none) ↔
        (mkBTreeSet l = []) by
      cases hset : mkBTreeSet l <;> simp [NetexMode.calculate_highest_mode]]
    exact mkBTreeSet_eq_nil_iff l
  · intro l h hh m hm
    have hsorted := mkBTreeSet_sorted l
    have hmem : m ∈ mkBTreeSet l := mem_mkBTreeSet_of_mem hm
    cases hset : mkBTreeSet l with
    | nil => simp [hset, NetexMode.calculate_highest_mode] at hh
    | cons x xs =>
      have hx : x = h := by
        simpa [hset, NetexMode.calculate_highest_mode] using hh
      subst hx
      rw [hset] at hmem hsorted
      rcases List.mem_cons.mp hmem with h' | h'
      · simp [h']
      · exact le_of_lt ((List.pairwise_cons.mp hsorted).1 m h')

/-- Claim C8 witness: the general conjuncts applied at concrete sets. -/
theorem calculate_highest_mode_spec_witness :
    (NetexMode.calculate_highest_mode (mkBTreeSet []) = none ↔ ([] : List NetexMode) = []) ∧
    NetexMode.Air.priority ≤ NetexMode.Bus.priority :=
  ⟨calculate_highest_mode_spec.2.2.1 [],
   calculate_highest_mode_spec.2.2.2 [.Bus, .Rail, .Air] .Air (by decide) .Bus (by decide)⟩

/-- Claim C9: every raw physical-mode label in the documented closed set maps
to exactly one mode category via `from_physical_mode_id` (several rail-like
labels all map to `Rail`) with no warning, and every label outside that set
yields `none` together with one warning naming the label. -/
theorem from_physical_mode_id_spec :
    (NetexMode.from_physical_mode_id "Air" = (some .Air, []) ∧
     NetexMode.from_physical_mode_id "Boat" = (some .Water, []) ∧
     NetexMode.from_physical_mode_id "Bus" = (some .Bus, []) ∧
     NetexMode.from_physical_mode_id "BusRapidTransit" = (some .Bus, []) ∧
     NetexMode.from_physical_mode_id "Coach" = (some .Coach, []) ∧
     NetexMode.from_physical_mode_id "Ferry" = (some .Water, []) ∧
     NetexMode.from_physical_mode_id "Funicular" = (some .Funicular, []) ∧
     NetexMode.from_physical_mode_id "LocalTrain" = (some .Rail, []) ∧
     NetexMode.from_physical_mode_id "LongDistanceTrain" = (some .Rail, []) ∧
     NetexMode.from_physical_mode_id "Metro" = (some .Metro, []) ∧
     NetexMode.from_physical_mode_id "RapidTransit" = (some .Rail, []) ∧
     NetexMode.from_physical_mode_id "RailShuttle" = (some .Rail, []) ∧
     NetexMode.from_physical_mode_id "Shuttle" = (some .Bus, []) ∧
     NetexMode.from_physical_mode_id "SuspendedCableCar" = (some .Cableway, []) ∧
     NetexMode.from_physical_mode_id "Train" = (some .Rail, []) ∧
     NetexMode.from_physical_mode_id "Tramway" = (some .Tram, [])) ∧
    (∀ s : String, s ∉ knownPhysicalModes →
      NetexMode.from_physical_mode_id s = (none, [unsupportedModeWarning s])) := by
  refine ⟨by decide, ?_⟩
  intro s hs
  simp only [knownPhysicalModes, List.mem_cons, List.not_mem_nil, or_false,
    not_or] at hs
  obtain ⟨h1, h2, h3, h4, h5, h6, h7, h8, h9, h10, h11, h12, h13, h14, h15, h16⟩ := hs
  simp [NetexMode.from_physical_mode_id, h1, h2, h3, h4, h5, h6, h7, h8, h9,
    h10, h11, h12, h13, h14, h15, h16]

/-- Claim C9 witness: the closure conjunct applied at a concrete unknown
label. -/
theorem from_physical_mode_id_spec_witness :
    NetexMode.from_physical_mode_id "Hyperloop" =
      (none, [unsupportedModeWarning "Hyperloop"]) :=
  from_physical_mode_id_spec.2 "Hyperloop" (by decide)

/-! ## Identifier namespacing (`src/add_prefix.rs`) -/

/-- Hash/BTree map insertion on an association list: replace the binding of an
existing equal key in place, otherwise append the new binding at the end.
This is the behaviour of `HashMap::insert`/`BTreeMap::insert` observed through
the map's entry set. -/
def hmInsert {κ ν : Type} [DecidableEq κ] :
    List (κ × ν) → κ → ν → List (κ × ν)
  | [], k, v => [(k, v)]
  | (k', v') :: rest, k, v =>
    if k = k' then (k, v) :: rest else (k', v') :: hmInsert rest k v

/-- Collecting an iterator of pairs into a map (`collect::<HashMap<_, _>>()`):
insert every pair in order, a later pair overwriting an earlier one with the
same key. -/
def hmFromList {κ ν : Type} [DecidableEq κ] (l : List (κ × ν)) : List (κ × ν) :=
  l.foldl (fun m e => hmInsert m e.1 e.2) []

/-- Keys of an association list. -/
def keysOf {κ ν : Type} (l : List (κ × ν)) : List κ := l.map Prod.fst

theorem hmInsert_of_not_mem {κ ν : Type} [DecidableEq κ]
    {m : List (κ × ν)} {k : κ} (v : ν) (hk : k ∉ keysOf m) :
    hmInsert m k v = m ++ [(k, v)] := by
  induction m with
  | nil => simp [hmInsert]
  | cons e rest ih =>
    simp only [keysOf, List.map_cons, List.mem_cons, not_or] at hk
    obtain ⟨h1, h2⟩ := hk
    cases e with
    | mk k' v' =>
      simp only [hmInsert, if_neg h1, List.cons_append]
      rw [ih]
      simpa [keysOf] using h2

theorem hmFoldl_of_nodup {κ ν : Type} [DecidableEq κ]
    (l m : List (κ × ν)) (h : (keysOf m ++ keysOf l).Nodup) :
    l.foldl (fun acc e => hmInsert acc e.1 e.2) m = m ++ l := by
  induction l generalizing m with
  | nil => simp
  | cons e rest ih =>
    simp only [List.foldl_cons]
    have hk : e.1 ∉ keysOf m := by
      intro hmem
      exact (List.nodup_append.mp h).2.2 hmem (by simp [keysOf])
    rw [hmInsert_of_not_mem e.2 hk]
    have h' : (keysOf (m ++ [e]) ++ keysOf rest).Nodup := by
      simp only [keysOf, List.map_append, List.map_cons] at h ⊢
      simpa [List.append_assoc] using h
    rw [ih (m ++ [e]) h']
    simp

theorem hmFromList_of_nodup {κ ν : Type} [DecidableEq κ]
    (l : List (κ × ν)) (h : (keysOf l).Nodup) : hmFromList l = l := by
  have := hmFoldl_of_nodup l ([] : List (κ × ν)) (by simpa [keysOf] using h)
  simpa [hmFromList] using this

/-- Left cancellation for string concatenation. -/
theorem string_append_left_cancel {a b c : String}
    (h : a ++ b = a ++ c) : b = c := by
  have hd : a.data ++ b.data = a.data ++ c.data := by
    have := congrArg String.data h
    simpa [String.data_append] using this
  cases b with
  | mk bd =>
    cases c with
    | mk cd =>
      simp only at hd
      exact congrArg String.mk (List.append_cancel_left hd)

/-- Embedding of `add_prefix_on_vehicle_journey_ids`: iterate the map keyed by
`(trip identifier, sequence number)`, rewrite each key's identifier component
by prepending the namespace string, keep the sequence number and the value
verbatim, and collect the result back into a map. -/
def add_prefix_on_vehicle_journey_ids
    (vehicle_journey_ids : List ((String × Nat) × String)) (p : String) :
    List ((String × Nat) × String) :=
  hmFromList (vehicle_journey_ids.map
    (fun e => ((p ++ e.1.1, e.1.2), e.2)))

/-- Embedding of `add_prefix_on_vehicle_journey_ids_and_values`: as above but
the value is also rewritten by prepending the namespace string. -/
def add_prefix_on_vehicle_journey_ids_and_values
    (vehicle_journey_ids : List ((String × Nat) × String)) (p : String) :
    List ((String × Nat) × String) :=
  hmFromList (vehicle_journey_ids.map
    (fun e => ((p ++ e.1.1, e.1.2), p ++ e.2)))

theorem vjKey_injective (p : String) :
    Function.Injective (fun k : String × Nat => (p ++ k.1, k.2)) := by
  intro a b hab
  simp only [Prod.mk.injEq] at hab
  exact Prod.ext (string_append_left_cancel hab.1) hab.2

theorem vjMap_keys_nodup (m : List ((String × Nat) × String)) (p : String)
    (v : ((String × Nat) × String) → String)
    (h : (keysOf m).Nodup) :
    (keysOf (m.map (fun e => ((p ++ e.1.1, e.1.2), v e)))).Nodup := by
  have heq : keysOf (m.map (fun e => ((p ++ e.1.1, e.1.2), v e))) =
      (keysOf m).map (fun k => (p ++ k.1, k.2)) := by
    simp [keysOf, List.map_map, Function.comp]
  rw [heq]
  exact List.Nodup.map (vjKey_injective p) h

/-- Claim C5: for every auxiliary map keyed by (trip identifier, sequence
number) with distinct keys and every namespace string P, the key-only
rewriting function maps each entry ((t, s), v) to ((P ++ t, s), v) with the
value untouched, and the key-and-value rewriting function maps each entry
((t, s), v) to ((P ++ t, s), P ++ v); in both flavors the sequence component
is copied verbatim, entry order is kept, and no entry is deduplicated or
dropped (the entry count is preserved). -/
theorem add_prefix_on_vehicle_journey_ids_spec
    (m : List ((String × Nat) × String)) (p : String)
    (h : (keysOf m).Nodup) :
    add_prefix_on_vehicle_journey_ids m p =
      m.map (fun e => ((p ++ e.1.1, e.1.2), e.2)) ∧
    add_prefix_on_vehicle_journey_ids_and_values m p =
      m.map (fun e => ((p ++ e.1.1, e.1.2), p ++ e.2)) ∧
    (add_prefix_on_vehicle_journey_ids m p).length = m.length ∧
    (add_prefix_on_vehicle_journey_ids_and_values m p).length = m.length := by
  have h1 : add_prefix_on_vehicle_journey_ids m p =
      m.map (fun e => ((p ++ e.1.1, e.1.2), e.2)) :=
    hmFromList_of_nodup _ (vjMap_keys_nodup m p (fun e => e.2) h)
  have h2 : add_prefix_on_vehicle_journey_ids_and_values m p =
      m.map (fun e => ((p ++ e.1.1, e.1.2), p ++ e.2)) :=
    hmFromList_of_nodup _ (vjMap_keys_nodup m p (fun e => p ++ e.2) h)
  exact ⟨h1, h2, by rw [h1]; simp, by rw [h2]; simp⟩

/-- Claim C5 witness: the rewriting functions evaluated on a concrete
two-entry map. -/
theorem add_prefix_on_vehicle_journey_ids_spec_witness :
    add_prefix_on_vehicle_journey_ids
        [(("trip1", 0), "head"), (("trip2", 3), "sign")] "net:" =
      [(("net:trip1", 0), "head"), (("net:trip2", 3), "sign")] ∧
    add_prefix_on_vehicle_journey_ids_and_values
        [(("trip1", 0), "head"), (("trip2", 3), "sign")] "net:" =
      [(("net:trip1", 0), "net:head"), (("net:trip2", 3), "net:sign")] := by
  have h := add_prefix_on_vehicle_journey_ids_spec
    [(("trip1", 0), "head"), (("trip2", 3), "sign")] "net:" (by decide)
  exact ⟨by rw [h.1]; rfl, by rw [h.2.1]; rfl⟩

/-- Modelled from the spec: the dataset's record types (defined in
`objects.rs`, which is not among the embedded sources) each expose a read
accessor and a mutator for their own identifier, and their `AddPrefix`
implementations rewrite that identifier by prepending the namespace string
("every identifier in every collection equals P concatenated with its
pre-namespacing value"). -/
structure Obj where
  id : String
  deriving DecidableEq, Repr

/-- The element-level `AddPrefix` capability of a record, modelled from the
spec: prepend the namespace string to the record's identifier. -/
def Obj.addPrefixObj (p : String) (o : Obj) : Obj :=
  { id := p ++ o.id }

/-- Embedding of `impl AddPrefix for Collection<T>`: apply the element
capability to every element in place (a mutating for-loop over `values_mut`,
rendered as an elementwise map). -/
def collection_add_prefix (p : String) (c : List Obj) : List Obj :=
  c.map (Obj.addPrefixObj p)

/-- Rewrite the element at one position of the arena, leaving all other
positions untouched (`index_mut` followed by the element mutation). -/
def setApply (f : Obj → Obj) : List Obj → Nat → List Obj
  | [], _ => []
  | x :: xs, 0 => f x :: xs
  | x :: xs, n + 1 => x :: setApply f xs n

/-- Embedding of `impl AddPrefix for CollectionWithId<T>`: first collect the
existing positions (`self.iter().map(|(idx, _)| idx).collect()`), then
rewrite the element addressed by each collected position. -/
def collection_with_id_add_prefix (p : String) (c : List Obj) : List Obj :=
  (List.range c.length).foldl
    (fun vs i => setApply (Obj.addPrefixObj p) vs i) c

theorem foldl_setApply_mapsucc (f : Obj → Obj) (x : Obj) (xs : List Obj)
    (is : List Nat) :
    (is.map Nat.succ).foldl (fun vs i => setApply f vs i) (x :: xs) =
      x :: is.foldl (fun vs i => setApply f vs i) xs := by
  induction is generalizing xs with
  | nil => rfl
  | cons j js ih =>
    simp only [List.map_cons, List.foldl_cons]
    exact ih (setApply f xs j)

theorem collection_with_id_eq_map (p : String) (c : List Obj) :
    collection_with_id_add_prefix p c = c.map (Obj.addPrefixObj p) := by
  induction c with
  | nil => rfl
  | cons x xs ih =>
    simp only [ collection_with_id_add_prefix, List.length_cons,
      List.range_succ_eq_map, List.foldl_cons] at *
    rw [show setApply (Obj.addPrefixObj p) (x :: xs) 0 =
        Obj.addPrefixObj p x :: xs from rfl]
    rw [foldl_setApply_mapsucc]
    simp only [List.map_cons]
    exact congrArg _ ih

/-- The `Collections` aggregate of the whole dataset, with the fields named
in `impl AddPrefix for Collections` in their declared order.  Modelled from
the spec for the element types (the concrete record types live in
`model.rs`/`objects.rs`, outside the embedded sources): each collection is a
sequence of identified records, and the three per-stop-time auxiliary maps
are keyed by `(trip identifier, sequence number)`.  Whether a given field is
a `Collection` or a `CollectionWithId` in the original is immaterial here:
both containers rewrite every element in place. -/
structure Collections where
  contributors : List Obj
  datasets : List Obj
  networks : List Obj
  lines : List Obj
  routes : List Obj
  vehicle_journeys : List Obj
  frequencies : List Obj
  stop_areas : List Obj
  stop_points : List Obj
  stop_locations : List Obj
  calendars : List Obj
  companies : List Obj
  comments : List Obj
  equipments : List Obj
  transfers : List Obj
  trip_properties : List Obj
  geometries : List Obj
  admin_stations : List Obj
  prices_v1 : List Obj
  od_fares_v1 : List Obj
  fares_v1 : List Obj
  tickets : List Obj
  ticket_prices : List Obj
  ticket_uses : List Obj
  ticket_use_perimeters : List Obj
  ticket_use_restrictions : List Obj
  pathways : List Obj
  levels : List Obj
  grid_calendars : List Obj
  grid_exception_dates : List Obj
  grid_periods : List Obj
  grid_rel_calendar_line : List Obj
  stop_time_headsigns : List ((String × Nat) × String)
  stop_time_ids : List ((String × Nat) × String)
  stop_time_comments : List ((String × Nat) × String)

/-- Embedding of `impl AddPrefix for Collections`: invoke the capability on
every top-level collection in the declared order, then rewrite the three
per-stop-time auxiliary maps (key-only for the headsigns, key-and-value for
the stop-time identifiers and comments). -/
def Collections.add_prefix (c : Collections) (p : String) : Collections where
  contributors := collection_with_id_add_prefix p c.contributors
  datasets := collection_with_id_add_prefix p c.datasets
  networks := collection_with_id_add_prefix p c.networks
  lines := collection_with_id_add_prefix p c.lines
  routes := collection_with_id_add_prefix p c.routes
  vehicle_journeys := collection_with_id_add_prefix p c.vehicle_journeys
  frequencies := collection_add_prefix p c.frequencies
  stop_areas := collection_with_id_add_prefix p c.stop_areas
  stop_points := collection_with_id_add_prefix p c.stop_points
  stop_locations := collection_with_id_add_prefix p c.stop_locations
  calendars := collection_with_id_add_prefix p c.calendars
  companies := collection_with_id_add_prefix p c.companies
  comments := collection_with_id_add_prefix p c.comments
  equipments := collection_with_id_add_prefix p c.equipments
  transfers := collection_add_prefix p c.transfers
  trip_properties := collection_with_id_add_prefix p c.trip_properties
  geometries := collection_with_id_add_prefix p c.geometries
  admin_stations := collection_add_prefix p c.admin_stations
  prices_v1 := collection_add_prefix p c.prices_v1
  od_fares_v1 := collection_add_prefix p c.od_fares_v1
  fares_v1 := collection_add_prefix p c.fares_v1
  tickets := collection_with_id_add_prefix p c.tickets
  ticket_prices := collection_add_prefix p c.ticket_prices
  ticket_uses := collection_with_id_add_prefix p c.ticket_uses
  ticket_use_perimeters := collection_add_prefix p c.ticket_use_perimeters
  ticket_use_restrictions := collection_add_prefix p c.ticket_use_restrictions
  pathways := collection_with_id_add_prefix p c.pathways
  levels := collection_with_id_add_prefix p c.levels
  grid_calendars := collection_with_id_add_prefix p c.grid_calendars
  grid_exception_dates := collection_add_prefix p c.grid_exception_dates
  grid_periods := collection_add_prefix p c.grid_periods
  grid_rel_calendar_line := collection_add_prefix p c.grid_rel_calendar_line
  stop_time_headsigns := add_prefix_on_vehicle_journey_ids c.stop_time_headsigns p
  stop_time_ids := add_prefix_on_vehicle_journey_ids_and_values c.stop_time_ids p
  stop_time_comments := add_prefix_on_vehicle_journey_ids_and_values c.stop_time_comments p

/-- The `AddPrefix` trait: the base method rewrites every identifier owned by
the value by prepending the namespace string. -/
structure AddPrefixImpl (α : Type) where
  add_prefix : String → α → α

/-- Embedding of the provided trait method `add_prefix_with_sep`: build the
concatenation of the namespace string and the separator (`format!` of the
two), then delegate to the base method. -/
def AddPrefixImpl.add_prefix_with_sep {α : Type} (inst : AddPrefixImpl α)
    (p sep : String) (x : α) : α :=
  inst.add_prefix (p ++ sep) x

/-- The trait implementation of the whole dataset. -/
def collectionsAddPrefixImpl : AddPrefixImpl Collections :=
  ⟨fun p c => Collections.add_prefix c p⟩

/-- The trait implementation of a single record (modelled from the spec, as
`Obj.addPrefixObj`). -/
def objAddPrefixImpl : AddPrefixImpl Obj :=
  ⟨Obj.addPrefixObj⟩

/-- Claim C7: for every value implementing the prefixing capability, every
namespace string P and every separator S, `add_prefix_with_sep P S` produces
exactly the same result as the base `add_prefix` applied to `P ++ S`;
instantiated at a single record and at the whole dataset. -/
theorem add_prefix_with_sep_spec :
    (∀ (α : Type) (inst : AddPrefixImpl α) (p s : String) (x : α),
      inst.add_prefix_with_sep p s x = inst.add_prefix (p ++ s) x) ∧
    (∀ (p s : String) (o : Obj),
      ( objAddPrefixImpl.add_prefix_with_sep p s o).id = p ++ s ++ o.id) ∧
    (∀ (p s : String) (c : Collections),
      collectionsAddPrefixImpl.add_prefix_with_sep p s c =
        Collections.add_prefix c (p ++ s)) :=
  ⟨fun _ _ _ _ _ => rfl, fun _ _ _ => rfl, fun _ _ _ => rfl⟩

/-- Observation on one rewritten collection: the new sequence is exactly the
elementwise rewriting of the old one (same order, nothing added or removed),
every identifier equals the namespace string concatenated with its previous
value, and the record count is unchanged. -/
def IdsPrefixed (p : String) (old new : List Obj) : Prop :=
  new = old.map (Obj.addPrefixObj p) ∧
  new.map Obj.id = old.map (fun o => p ++ o.id) ∧
  new.length = old.length

theorem idsPrefixed_collection (p : String) (l : List Obj) :
    IdsPrefixed p l ( collection_add_prefix p l) := by
  refine ⟨rfl, ?_, by simp [ collection_add_prefix]⟩
  simp [ collection_add_prefix, List.map_map, Function.comp, Obj.addPrefixObj]

theorem idsPrefixed_collection_with_id (p : String) (l : List Obj) :
    IdsPrefixed p l ( collection_with_id_add_prefix p l) := by
  rw [collection_with_id_eq_map]
  exact idsPrefixed_collection p l

/-- Claim C6: for every dataset and every namespace string P, after
`add_prefix(P)` on the whole dataset, every identifier in every collection
equals P concatenated with its pre-namespacing value, the number of records
in every collection is unchanged, element order is preserved and no element
is added or removed; the three auxiliary maps are rewritten entrywise (under
their map invariant of distinct keys); and the separator variant coincides
with prefixing by `P ++ separator`. -/
theorem Collections_add_prefix_spec (c : Collections) (p : String) :
    (IdsPrefixed p c.contributors ( Collections.add_prefix c p).contributors ∧
     IdsPrefixed p c.datasets ( Collections.add_prefix c p).datasets ∧
     IdsPrefixed p c.networks ( Collections.add_prefix c p).networks ∧
     IdsPrefixed p c.lines ( Collections.add_prefix c p).lines ∧
     IdsPrefixed p c.routes ( Collections.add_prefix c p).routes ∧
     IdsPrefixed p c.vehicle_journeys ( Collections.add_prefix c p).vehicle_journeys ∧
     IdsPrefixed p c.frequencies ( Collections.add_prefix c p).frequencies ∧
     IdsPrefixed p c.stop_areas ( Collections.add_prefix c p).stop_areas ∧
     IdsPrefixed p c.stop_points ( Collections.add_prefix c p).stop_points ∧
     IdsPrefixed p c.stop_locations ( Collections.add_prefix c p).stop_locations ∧
     IdsPrefixed p c.calendars ( Collections.add_prefix c p).calendars ∧
     IdsPrefixed p c.companies ( Collections.add_prefix c p).companies ∧
     IdsPrefixed p c.comments ( Collections.add_prefix c p).comments ∧
     IdsPrefixed p c.equipments ( Collections.add_prefix c p).equipments ∧
     IdsPrefixed p c.transfers ( Collections.add_prefix c p).transfers ∧
     IdsPrefixed p c.trip_properties ( Collections.add_prefix c p).trip_properties ∧
     IdsPrefixed p c.geometries ( Collections.add_prefix c p).geometries ∧
     IdsPrefixed p c.admin_stations ( Collections.add_prefix c p).admin_stations ∧
     IdsPrefixed p c.prices_v1 ( Collections.add_prefix c p).prices_v1 ∧
     IdsPrefixed p c.od_fares_v1 ( Collections.add_prefix c p).od_fares_v1 ∧
     IdsPrefixed p c.fares_v1 ( Collections.add_prefix c p).fares_v1 ∧
     IdsPrefixed p c.tickets ( Collections.add_prefix c p).tickets ∧
     IdsPrefixed p c.ticket_prices ( Collections.add_prefix c p).ticket_prices ∧
     IdsPrefixed p c.ticket_uses ( Collections.add_prefix c p).ticket_uses ∧
     IdsPrefixed p c.ticket_use_perimeters ( Collections.add_prefix c p).ticket_use_perimeters ∧
     IdsPrefixed p c.ticket_use_restrictions ( Collections.add_prefix c p).ticket_use_restrictions ∧
     IdsPrefixed p c.pathways ( Collections.add_prefix c p).pathways ∧
     IdsPrefixed p c.levels ( Collections.add_prefix c p).levels ∧
     IdsPrefixed p c.grid_calendars ( Collections.add_prefix c p).grid_calendars ∧
     IdsPrefixed p c.grid_exception_dates ( Collections.add_prefix c p).grid_exception_dates ∧
     IdsPrefixed p c.grid_periods ( Collections.add_prefix c p).grid_periods ∧
     IdsPrefixed p c.grid_rel_calendar_line ( Collections.add_prefix c p).grid_rel_calendar_line) ∧
    (((keysOf c.stop_time_headsigns).Nodup →
       ( Collections.add_prefix c p).stop_time_headsigns =
         c.stop_time_headsigns.map (fun e => ((p ++ e.1.1, e.1.2), e.2))) ∧
     ((keysOf c.stop_time_ids).Nodup →
       ( Collections.add_prefix c p).stop_time_ids =
         c.stop_time_ids.map (fun e => ((p ++ e.1.1, e.1.2), p ++ e.2))) ∧
     ((keysOf c.stop_time_comments).Nodup →
       ( Collections.add_prefix c p).stop_time_comments =
         c.stop_time_comments.map (fun e => ((p ++ e.1.1, e.1.2), p ++ e.2)))) ∧
    (∀ s : String, collectionsAddPrefixImpl.add_prefix_with_sep p s c =
       Collections.add_prefix c (p ++ s)) := by
  refine ⟨?_, ⟨?_, ?_, ?_⟩, fun s => rfl⟩
  · exact ⟨idsPrefixed_collection_with_id p _, idsPrefixed_collection_with_id p _,
      idsPrefixed_collection_with_id p _, idsPrefixed_collection_with_id p _,
      idsPrefixed_collection_with_id p _, idsPrefixed_collection_with_id p _,
      idsPrefixed_collection p _, idsPrefixed_collection_with_id p _,
      idsPrefixed_collection_with_id p _, idsPrefixed_collection_with_id p _,
      idsPrefixed_collection_with_id p _, idsPrefixed_collection_with_id p _,
      idsPrefixed_collection_with_id p _, idsPrefixed_collection_with_id p _,
      idsPrefixed_collection p _, idsPrefixed_collection_with_id p _,
      idsPrefixed_collection_with_id p _, idsPrefixed_collection p _,
      idsPrefixed_collection p _, idsPrefixed_collection p _,
      idsPrefixed_collection p _, idsPrefixed_collection_with_id p _,
      idsPrefixed_collection p _, idsPrefixed_collection_with_id p _,
      idsPrefixed_collection p _, idsPrefixed_collection p _,
      idsPrefixed_collection_with_id p _, idsPrefixed_collection_with_id p _,
      idsPrefixed_collection_with_id p _, idsPrefixed_collection p _,
      idsPrefixed_collection p _, idsPrefixed_collection p _⟩
  · exact fun h => hmFromList_of_nodup _ (vjMap_keys_nodup _ p _ h)
  · exact fun h => hmFromList_of_nodup _ (vjMap_keys_nodup _ p _ h)
  · exact fun h => hmFromList_of_nodup _ (vjMap_keys_nodup _ p _ h)

/-- A small concrete dataset used to witness the claim C6 theorem. -/
def sampleCollections : Collections where
  contributors := [⟨"c1"⟩]
  datasets := [⟨"d1"⟩]
  networks := []
  lines := [⟨"l1"⟩, ⟨"l2"⟩]
  routes := []
  vehicle_journeys := []
  frequencies := []
  stop_areas := []
  stop_points := []
  stop_locations := []
  calendars := []
  companies := []
  comments := []
  equipments := []
  transfers := []
  trip_properties := []
  geometries := []
  admin_stations := []
  prices_v1 := []
  od_fares_v1 := []
  fares_v1 := []
  tickets := []
  ticket_prices := []
  ticket_uses := []
  ticket_use_perimeters := []
  ticket_use_restrictions := []
  pathways := []
  levels := []
  grid_calendars := []
  grid_exception_dates := []
  grid_periods := []
  grid_rel_calendar_line := []
  stop_time_headsigns := [(("trip1", 0), "head")]
  stop_time_ids := [(("trip1", 0), "st1")]
  stop_time_comments := []

/-- Claim C6 witness: the dataset-level theorem applied to a concrete small
dataset, with the auxiliary-map key invariants discharged concretely. -/
theorem Collections_add_prefix_spec_witness :
    ( Collections.add_prefix sampleCollections "pre:").lines.map Obj.id =
      ["pre:l1", "pre:l2"] ∧
    ( Collections.add_prefix sampleCollections "pre:").stop_time_headsigns =
      [(("pre:trip1", 0), "head")] ∧
    ( Collections.add_prefix sampleCollections "pre:").stop_time_ids =
      [(("pre:trip1", 0), "pre:st1")] := by
  have h := Collections_add_prefix_spec sampleCollections "pre:"
  refine ⟨?_, ?_, ?_⟩
  · have hl := (h.1.2.2.2.1).2.1
    rw [hl]
    rfl
  · have hm := h.2.1.1 (by decide)
    rw [hm]
    rfl
  · have hm := h.2.1.2.1 (by decide)
    rw [hm]
    rfl

/-! ## Configuration loader (`read_config` in `src/read_utils.rs`) -/

/-- Modelled from the spec: a contributor record (`objects.rs` is not among
the embedded sources); the design notes prescribe it be explicitly
default-constructible with empty values. -/
structure Contributor where
  id : String
  name : String
  deriving DecidableEq, Repr

/-- Modelled from the spec: the default contributor value. -/
def Contributor.mkDefault : Contributor := ⟨"", ""⟩

/-- The `dataset` object of the configuration file: at least a `dataset_id`
string field. -/
structure ConfigDataset where
  dataset_id : String
  deriving DecidableEq, Repr

/-- Modelled from the spec: a dataset record, created from a dataset
identifier and the owning contributor's identifier
(`Dataset::new(dataset_id, contributor_id)`), with an empty default. -/
structure Dataset where
  id : String
  contributor_id : String
  deriving DecidableEq, Repr

/-- Modelled from the spec: `Dataset::new`. -/
def Dataset.new (dataset_id : String) (contributor_id : String) : Dataset :=
  ⟨dataset_id, contributor_id⟩

/-- Modelled from the spec: the default dataset value. -/
def Dataset.mkDefault : Dataset := ⟨"", ""⟩

/-- The parsed shape of the JSON configuration file: a contributor, a
dataset object, and an optional feed-info map. -/
structure Config where
  contributor : Contributor
  dataset : ConfigDataset
  feed_infos : Option (List (String × String))

/-- Embedding of `read_config`.  Opening and parsing the configuration file
is abstracted as the outcome the filesystem and the JSON parser would
produce for the supplied path: the argument is `none` when no path is
supplied, `some (.error e)` when the file at the path cannot be opened or
parsed, and `some (.ok config)` when it parses. -/
def read_config (config_path : Option (Except String Config)) :
    Except String (Contributor × Dataset × List (String × String)) :=
  match config_path with
  | some parsed =>
    match parsed with
    | .error e => .error e
    | .ok config =>
      .ok (config.contributor,
        Dataset.new config.dataset.dataset_id config.contributor.id,
        config.feed_infos.getD [])
  | none => .ok (Contributor.mkDefault, Dataset.mkDefault, [])

/-- Claim C10: with no configuration path, `read_config` succeeds with the
default contributor, the default dataset and an empty feed-info map; with a
path supplied it never falls back to those defaults: an open/parse failure
is returned as an error, and a successful parse yields the file's own
contributor, a dataset built from the file's dataset identifier and the
contributor's identifier, and the file's feed infos (empty when absent). -/
theorem read_config_spec :
    read_config none = .ok (Contributor.mkDefault, Dataset.mkDefault, []) ∧
    (∀ e : String, read_config (some (.error e)) = .error e) ∧
    (∀ config : Config, read_config (some (.ok config)) =
      .ok (config.contributor,
        Dataset.new config.dataset.dataset_id config.contributor.id,
        config.feed_infos.getD [])) :=
  ⟨rfl, fun _ => rfl, fun _ => rfl⟩

/-! ## Typed record readers (`read_objects`, `read_objects_loose`) -/

/-- Collect an iterator of per-row conversion outcomes into a single outcome
(`collect::<Result<_, _>>()`): the whole sequence on success, the first
failure otherwise. -/
def collectResults {O : Type} : List (Except String O) → Except String (List O)
  | [] => .ok []
  | .error e :: _ => .error e
  | .ok o :: rest => (collectResults rest).map (o :: ·)

/-- `with_context`: wrap a failure's message with a context line; leave a
success untouched. -/
def withCtx {O : Type} (ctx : String) : Except String O → Except String O
  | .error e => .error (ctx ++ ": " ++ e)
  | .ok o => .ok o

/-- Embedding of `read_objects`.  The file-source probe
(`get_file_if_exists`) has already happened: `reader` is `none` when the
file is absent, otherwise the list of per-row conversion outcomes the CSV
deserializer yields for its rows; `path` is the display path returned
alongside (the base path joined with the file name). -/
def read_objects {O : Type} (reader : Option (List (Except String O)))
    (path : String) (required_file : Bool) : Except String (List O) :=
  match reader, required_file with
  | none, false => .ok []
  | none, true => .error ("file " ++ path ++ " not found")
  | some rows, _ => withCtx ("Error reading " ++ path) (collectResults rows)

/-- `skip_error_and_warn`: drop every failed row, emitting one warning (its
message) per dropped row, and keep the successful rows in order. -/
def skip_error_and_warn {O : Type} :
    List (Except String O) → List O × List String
  | [] => ([], [])
  | .ok o :: rest =>
    let r := skip_error_and_warn rest
    (o :: r.1, r.2)
  | .error e :: rest =>
    let r := skip_error_and_warn rest
    (r.1, e :: r.2)

/-- Embedding of `read_objects_loose`: identical to `read_objects` except
that each row's outcome is wrapped with the file context and then fed
through `skip_error_and_warn`; the second component of the successful result
is the list of emitted warnings. -/
def read_objects_loose {O : Type} (reader : Option (List (Except String O)))
    (path : String) (required_file : Bool) :
    Except String (List O × List String) :=
  match reader, required_file with
  | none, false => .ok ([], [])
  | none, true => .error ("file " ++ path ++ " not found")
  | some rows, _ =>
    .ok (skip_error_and_warn (rows.map (withCtx ("Error reading " ++ path))))

/-- The successfully converted records of a row sequence, in order. -/
def okRecords {O : Type} (rows : List (Except String O)) : List O :=
  rows.filterMap (fun r => match r with | .ok o => some o | .error _ => none)

/-- The conversion-failure messages of a row sequence, in order. -/
def errRows {O : Type} (rows : List (Except String O)) : List String :=
  rows.filterMap (fun r => match r with | .ok _ => none | .error e => some e)

theorem skip_error_and_warn_eq {O : Type} (ctx : String)
    (rows : List (Except String O)) :
    skip_error_and_warn (rows.map (withCtx ctx)) =
      (okRecords rows, (errRows rows).map (fun e => ctx ++ ": " ++ e)) := by
  induction rows with
  | nil => rfl
  | cons r rest ih =>
    cases r with
    | ok o => simp [withCtx, skip_error_and_warn, okRecords, errRows,
        List.filterMap_cons, ih]
    | error e => simp [withCtx, skip_error_and_warn, okRecords, errRows,
        List.filterMap_cons, ih]

theorem collectResults_all_ok {O : Type} (rows : List (Except String O))
    (h : errRows rows = []) : collectResults rows = .ok (okRecords rows) := by
  induction rows with
  | nil => rfl
  | cons r rest ih =>
    cases r with
    | ok o =>
      simp only [errRows, List.filterMap_cons] at h
      simp [collectResults, okRecords, List.filterMap_cons, ih h, Except.map]
    | error e =>
      simp [errRows, List.filterMap_cons] at h

theorem collectResults_first_error {O : Type} (e : String)
    (pre post : List (Except String O)) (hpre : errRows pre = []) :
    collectResults (pre ++ .error e :: post) = .error e := by
  induction pre with
  | nil => rfl
  | cons r rest ih =>
    cases r with
    | ok o =>
      simp only [errRows, List.filterMap_cons] at hpre
      simp [collectResults, ih hpre, Except.map]
    | error e' =>
      simp [errRows, List.filterMap_cons] at hpre

/-- Claim C2: for a present file whose rows split into successes and
conversion failures, the lossy reader returns `Ok` with exactly the
successfully converted records, in file order, together with one warning per
dropped row (the failure wrapped with the file's display path); the strict
reader succeeds exactly when no row fails, and upon the first malformed row
returns an error wrapping that row's conversion failure with the display
path. -/
theorem read_objects_strict_loose_spec {O : Type}
    (rows : List (Except String O)) (path : String) (required_file : Bool) :
    read_objects_loose (some rows) path required_file =
      .ok (okRecords rows,
        (errRows rows).map (fun e => "Error reading " ++ path ++ ": " ++ e)) ∧
    (errRows rows = [] →
      read_objects (some rows) path required_file = .ok (okRecords rows)) ∧
    (∀ (e : String) (pre post : List (Except String O)),
      rows = pre ++ .error e :: post → errRows pre = [] →
      read_objects (some rows) path required_file =
        .error ("Error reading " ++ path ++ ": " ++ e)) := by
  refine ⟨?_, ?_, ?_⟩
  · cases required_file <;>
      (show Except.ok
          (skip_error_and_warn (rows.map (withCtx ("Error reading " ++ path)))) = _
       rw [skip_error_and_warn_eq])
  · intro h
    cases required_file <;>
      (show withCtx ("Error reading " ++ path) (collectResults rows) = _
       rw [collectResults_all_ok rows h]
       rfl)
  · intro e pre post hrows hpre
    cases required_file <;>
      (show withCtx ("Error reading " ++ path) (collectResults rows) = _
       rw [hrows, collectResults_first_error e pre post hpre]
       rfl)

/-- Claim C2 witness: the reader pair evaluated on a concrete three-row file
with one malformed middle row. -/
theorem read_objects_strict_loose_spec_witness :
    read_objects_loose
        (some [Except.ok (1 : Nat), .error "bad row", .ok 2]) "gtfs/stops.txt" true =
      .ok ([1, 2], ["Error reading gtfs/stops.txt: bad row"]) ∧
    read_objects
        (some [Except.ok (1 : Nat), .error "bad row", .ok 2]) "gtfs/stops.txt" true =
      .error ("Error reading gtfs/stops.txt: bad row") := by
  have h := read_objects_strict_loose_spec
    [Except.ok (1 : Nat), .error "bad row", .ok 2] "gtfs/stops.txt" true
  exact ⟨by rw [h.1]; rfl,
    h.2.2 "bad row" [Except.ok 1] [Except.ok 2] rfl rfl⟩

/-- Claim C3: probing an absent file with `required = false` yields `Ok` with
an empty sequence for both reader variants, while `required = true` yields a
missing-file error whose message names the file (through its display path,
the base path joined with the file name); identical for strict and lossy. -/
theorem read_objects_absent_spec {O : Type} (base file_name : String) :
    read_objects (none : Option (List (Except String O)))
        (base ++ "/" ++ file_name) false = .ok [] ∧
    read_objects (none : Option (List (Except String O)))
        (base ++ "/" ++ file_name) true =
      .error ("file " ++ (base ++ "/" ++ file_name) ++ " not found") ∧
    read_objects_loose (none : Option (List (Except String O)))
        (base ++ "/" ++ file_name) false = .ok ([], []) ∧
    read_objects_loose (none : Option (List (Except String O)))
        (base ++ "/" ++ file_name) true =
      .error ("file " ++ (base ++ "/" ++ file_name) ++ " not found") :=
  ⟨rfl, rfl, rfl, rfl⟩

/-! ## Identified collection builder (`read_collection`, `read_opt_collection`) -/

/-- Modelled from the spec: the constructor of `CollectionWithId` (from the
external `typed_index_collection` crate; only its callers are among the
embedded sources) inserts the records in order into an identifier index and
fails with a duplicate-identifier error naming the colliding identifier as
soon as a record's identifier has already been seen; no record is dropped or
merged.  `seen` is the set of identifiers inserted so far. -/
def buildWithId {O : Type} (idOf : O → String) :
    List O → List String → Except String (List O)
  | [], _ => .ok []
  | x :: xs, seen =>
    if idOf x ∈ seen then
      .error ("identifier " ++ idOf x ++ " already exists")
    else
      (buildWithId idOf xs (idOf x :: seen)).map (x :: ·)

/-- Modelled from the spec: `CollectionWithId::new`. -/
def collectionWithIdNew {O : Type} (idOf : O → String) (l : List O) :
    Except String (List O) :=
  buildWithId idOf l []

/-- Embedding of `read_collection`: read the records of a required file and
build the identifier-indexed collection from them. -/
def read_collection {O : Type} (idOf : O → String)
    (reader : Option (List (Except String O))) (path : String) :
    Except String (List O) :=
  (read_objects reader path true).bind (collectionWithIdNew idOf)

/-- Embedding of `read_opt_collection`: as `read_collection` for an optional
file. -/
def read_opt_collection {O : Type} (idOf : O → String)
    (reader : Option (List (Except String O))) (path : String) :
    Except String (List O) :=
  (read_objects reader path false).bind (collectionWithIdNew idOf)

theorem buildWithId_ok {O : Type} (idOf : O → String) (l : List O)
    (seen : List String) (hdisj : ∀ a ∈ l.map idOf, a ∉ seen)
    (hnodup : (l.map idOf).Nodup) :
    buildWithId idOf l seen = .ok l := by
  induction l generalizing seen with
  | nil => rfl
  | cons x xs ih =>
    simp only [buildWithId]
    rw [if_neg (hdisj (idOf x) (by simp))]
    rw [ih (idOf x :: seen) ?_ (List.nodup_cons.mp hnodup).2]
    · rfl
    · intro a ha
      simp only [List.mem_cons, not_or]
      exact ⟨fun hax => (List.nodup_cons.mp hnodup).1 (hax ▸ ha),
        hdisj a (by simp [ha])⟩

theorem buildWithId_dup {O : Type} (idOf : O → String) (l : List O)
    (seen : List String) (hseen : seen.Nodup)
    (hdup : ¬ (seen ++ l.map idOf).Nodup) :
    ∃ d, buildWithId idOf l seen =
        .error ("identifier " ++ d ++ " already exists") ∧
      2 ≤ (seen ++ l.map idOf).count d := by
  induction l generalizing seen with
  | nil => simp at hdup; exact absurd hseen hdup
  | cons x xs ih =>
    simp only [buildWithId]
    by_cases hmem : idOf x ∈ seen
    · refine ⟨idOf x, by rw [if_pos hmem], ?_⟩
      rw [List.count_append]
      have h1 : 1 ≤ seen.count (idOf x) := List.count_pos_iff.mpr hmem
      have h2 : 1 ≤ ((x :: xs).map idOf).count (idOf x) := by
        simp [List.count_cons]
      omega
    · have hperm : ((idOf x :: seen) ++ xs.map idOf).Perm
          (seen ++ (x :: xs).map idOf) := by
        simp only [List.map_cons, List.cons_append]
        exact (List.perm_middle).symm
      have hdup' : ¬ ((idOf x :: seen) ++ xs.map idOf).Nodup := by
        intro hn
        exact hdup (hperm.nodup_iff.mp hn)
      obtain ⟨d, herr, hcount⟩ :=
        ih (idOf x :: seen) (List.nodup_cons.mpr ⟨hmem, hseen⟩) hdup'
      refine ⟨d, ?_, ?_⟩
      · rw [if_neg hmem, herr]
        rfl
      · rw [← hperm.count_eq]
        exact hcount

theorem collectResults_map_ok {O : Type} (l : List O) :
    collectResults (l.map Except.ok) = .ok l := by
  induction l with
  | nil => rfl
  | cons x xs ih => simp [collectResults, ih, Except.map]

/-- Claim C4: building an identified collection (through `read_collection`
or `read_opt_collection`) from a record sequence in which some identifier
occurs at least twice always fails with a duplicate-identifier error naming
a colliding identifier (one occurring at least twice), regardless of where
the duplicates sit; and when identifiers are distinct no record is dropped
or merged: the whole sequence is returned. -/
theorem read_collection_duplicate_spec {O : Type} (idOf : O → String)
    (l : List O) (path : String) :
    (¬ (l.map idOf).Nodup →
      ∃ d, 2 ≤ (l.map idOf).count d ∧
        read_collection idOf (some (l.map Except.ok)) path =
          .error ("identifier " ++ d ++ " already exists") ∧
        read_opt_collection idOf (some (l.map Except.ok)) path =
          .error ("identifier " ++ d ++ " already exists")) ∧
    ((l.map idOf).Nodup →
      read_collection idOf (some (l.map Except.ok)) path = .ok l ∧
      read_opt_collection idOf (some (l.map Except.ok)) path = .ok l) := by
  have hobj : ∀ r : Bool, read_objects (some (l.map Except.ok)) path r =
      .ok l := by
    intro r
    cases r <;>
      (show withCtx ("Error reading " ++ path)
          (collectResults (l.map Except.ok)) = _
       rw [collectResults_map_ok]
       rfl)
  constructor
  · intro hdup
    obtain ⟨d, herr, hcount⟩ :=
      buildWithId_dup idOf l [] List.nodup_nil (by simpa using hdup)
    refine ⟨d, by simpa using hcount, ?_, ?_⟩
    · show (read_objects (some (l.map Except.ok)) path true).bind _ = _
      rw [hobj true]
      exact herr
    · show (read_objects (some (l.map Except.ok)) path false).bind _ = _
      rw [hobj false]
      exact herr
  · intro hnodup
    have hok : collectionWithIdNew idOf l = .ok l :=
      buildWithId_ok idOf l [] (by simp) hnodup
    constructor
    · show (read_objects (some (l.map Except.ok)) path true).bind _ = _
      rw [hobj true]
      exact hok
    · show (read_objects (some (l.map Except.ok)) path false).bind _ = _
      rw [hobj false]
      exact hok

/-- Claim C4 witness: a concrete two-record file sharing one identifier is
rejected with the duplicate identifier named, and a duplicate-free file is
returned whole. -/
theorem read_collection_duplicate_spec_witness :
    read_collection Obj.id
        (some ([(⟨"sp1"⟩ : Obj), ⟨"sp1"⟩].map Except.ok)) "stops.txt" =
      .error "identifier sp1 already exists" ∧
    read_collection Obj.id
        (some ([(⟨"sp1"⟩ : Obj), ⟨"sp2"⟩].map Except.ok)) "stops.txt" =
      .ok [⟨"sp1"⟩, ⟨"sp2"⟩] := by
  constructor
  · obtain ⟨d, hcount, h1, h2⟩ :=
      (read_collection_duplicate_spec Obj.id [(⟨"sp1"⟩ : Obj), ⟨"sp1"⟩]
        "stops.txt").1 (by decide)
    have hmem : d ∈ ([(⟨"sp1"⟩ : Obj), ⟨"sp1"⟩].map Obj.id) :=
      List.count_pos_iff.mp (by omega)
    have hd : d = "sp1" := by simpa [Obj.id] using hmem
    rw [hd] at h1
    exact h1
  · exact ((read_collection_duplicate_spec Obj.id [(⟨"sp1"⟩ : Obj), ⟨"sp2"⟩]
      "stops.txt").2 (by decide)).1

/-! ## Uniform file source (`PathFileHandler`, `ZipHandler`) -/

/-- Byte contents of a file. -/
abbrev Bytes := List Nat

/-- A directory on disk: the base path, and the association of relative file
names to the byte contents an opened file would stream. -/
structure PathFileHandler where
  base_path : String
  files : List (String × Bytes)

/-- Embedding of `PathFileHandler::get_file_if_exists`: join the base path
with the name, probe the filesystem, and return the opened file's bytes when
present, always together with the display path. -/
def PathFileHandler.get_file_if_exists (h : PathFileHandler) (name : String) :
    Except String (Option Bytes × String) :=
  .ok (List.lookup name h.files, h.base_path ++ "/" ++ name)

/-- The slash-separated raw segments of a path's characters, in order (the
result is never empty; adjacent separators and leading/trailing separators
produce empty segments, removed below by component normalization). -/
def splitSegs : List Char → List (List Char)
  | [] => [[]]
  | c :: rest =>
    if c = '/' then [] :: splitSegs rest
    else
      match splitSegs rest with
      | [] => [[c]]
      | seg :: segs => (c :: seg) :: segs

/-- Embedding of `Path::new(name).file_name()`: the last component of the
path under Rust's component normalization, which ignores repeated and
trailing separators and `.` segments (so `"/usr/bin/"` has base name `bin`
and `"foo.txt/."` has base name `foo.txt`); `none` when no component
remains (root, empty or `.` paths) or when the path terminates in `..`. -/
def fileNameOf (p : String) : Option String :=
  let segs := (splitSegs p.data).filter
    (fun s => !(s == []) && !(s == ['.']))
  match segs.getLast? with
  | none => none
  | some s => if s = ['.', '.'] then none else some (String.mk s)

/-- A ZIP archive: the entries in index order (internal path and the bytes
the entry streams), and the archive's own path. -/
structure ZipHandler where
  archive : List (String × Bytes)
  archive_path : String

/-- The scan underlying `ZipHandler::files_by_name`: iterate the entry
indexes in order (`0..archive.len()`), keeping `(base name, index)` for
every entry whose internal path has a base name; `i` is the index of the
first remaining entry. -/
def files_by_name_scan : List (String × Bytes) → Nat → List (String × Nat)
  | [], _ => []
  | e :: rest, i =>
    match fileNameOf e.1 with
    | some n => (n, i) :: files_by_name_scan rest (i + 1)
    | none => files_by_name_scan rest (i + 1)

/-- Embedding of `ZipHandler::files_by_name`: collect the scanned pairs into
a `BTreeMap` (a later entry with the same base name overwrites an earlier
one). -/
def files_by_name (archive : List (String × Bytes)) : List (String × Nat) :=
  hmFromList (files_by_name_scan archive 0)

/-- Embedding of `ZipHandler::get_file_if_exists`: look the name up in the
precomputed base-name index and re-open the matching entry by its stored
index (`archive.by_index(i)?`); the error case models a stored index no
longer addressing an entry. -/
def ZipHandler.get_file_if_exists (z : ZipHandler) (name : String) :
    Except String (Option Bytes × String) :=
  let p := z.archive_path ++ "/" ++ name
  match List.lookup name (files_by_name z.archive) with
  | none => .ok (none, p)
  | some i =>
    match z.archive.get? i with
    | some e => .ok (some e.2, p)
    | none => .error "invalid index into the archive"

/-- The name-to-content view of an archive: each entry with a base name,
keyed by that base name. -/
def namedEntries : List (String × Bytes) → List (String × Bytes)
  | [] => []
  | e :: rest =>
    match fileNameOf e.1 with
    | some n => (n, e.2) :: namedEntries rest
    | none => namedEntries rest

theorem lookup_cons_ne {β : Type} {k k' : String} (v : β)
    (l : List (String × β)) (h : k ≠ k') :
    List.lookup k ((k', v) :: l) = List.lookup k l := by
  have hb : (k == k') = false := beq_eq_false_iff_ne.mpr h
  simp [List.lookup, hb]

theorem lookup_cons_eq {β : Type} (k : String) (v : β)
    (l : List (String × β)) :
    List.lookup k ((k, v) :: l) = some v := by
  simp [List.lookup]

theorem scan_keys_eq (a : List (String × Bytes)) (i : Nat) :
    keysOf (files_by_name_scan a i) = keysOf (namedEntries a) := by
  induction a generalizing i with
  | nil => rfl
  | cons e rest ih =>
    simp only [files_by_name_scan, namedEntries]
    cases hf : fileNameOf e.1 with
    | none => exact ih (i + 1)
    | some n =>
      simp only [keysOf, List.map_cons]
      have h := ih (i + 1)
      simp only [keysOf] at h
      rw [h]

theorem scan_lookup_spec (a : List (String × Bytes)) (name : String) :
    ∀ i : Nat,
      (List.lookup name (files_by_name_scan a i) = none →
        List.lookup name (namedEntries a) = none) ∧
      (∀ j, List.lookup name (files_by_name_scan a i) = some j →
        i ≤ j ∧ j - i < a.length ∧
        (a.get? (j - i)).map Prod.snd =
          List.lookup name (namedEntries a)) := by
  induction a with
  | nil =>
    intro i
    exact ⟨fun _ => rfl, fun j hj => by simp [files_by_name_scan] at hj⟩
  | cons e rest ih =>
    intro i
    cases hf : fileNameOf e.1 with
    | none =>
      simp only [files_by_name_scan, namedEntries, hf]
      constructor
      · exact (ih (i + 1)).1
      · intro j hj
        obtain ⟨h1, h2, h3⟩ := (ih (i + 1)).2 j hj
        refine ⟨by omega, by simp only [List.length_cons]; omega, ?_⟩
        rw [show j - i = (j - (i + 1)) + 1 by omega]
        simpa using h3
    | some n =>
      simp only [files_by_name_scan, namedEntries, hf]
      by_cases hname : name = n
      · subst hname
        constructor
        · intro h
          rw [lookup_cons_eq] at h
          cases h
        · intro j hj
          rw [lookup_cons_eq] at hj
          have : i = j := by injection hj
          subst this
          refine ⟨le_refl i, by simp, ?_⟩
          simp [lookup_cons_eq]
      · rw [lookup_cons_ne _ _ hname, lookup_cons_ne _ _ hname]
        constructor
        · exact (ih (i + 1)).1
        · intro j hj
          obtain ⟨h1, h2, h3⟩ := (ih (i + 1)).2 j hj
          refine ⟨by omega, by simp only [List.length_cons]; omega, ?_⟩
          rw [show j - i = (j - (i + 1)) + 1 by omega]
          simpa using h3

/-- Claim C1: for every file name, a directory and an archive that contain
the same named files with identical byte contents (their name-to-content
views are equal, the archive's base names being unambiguous) agree through
their handlers: `get_file_if_exists` succeeds on both, both report the same
found/not-found outcome, and when found the two readers stream byte-identical
content (each alongside its own display path). -/
theorem file_source_uniform_access (d : PathFileHandler) (z : ZipHandler)
    (name : String)
    (hnodup : (keysOf (namedEntries z.archive)).Nodup)
    (hsame : namedEntries z.archive = d.files) :
    ∃ content : Option Bytes,
      PathFileHandler.get_file_if_exists d name =
        .ok (content, d.base_path ++ "/" ++ name) ∧
      ZipHandler.get_file_if_exists z name =
        .ok (content, z.archive_path ++ "/" ++ name) := by
  have hkeys : (keysOf (files_by_name_scan z.archive 0)).Nodup := by
    rw [scan_keys_eq]
    exact hnodup
  have hfbn : files_by_name z.archive = files_by_name_scan z.archive 0 :=
    hmFromList_of_nodup _ hkeys
  refine ⟨List.lookup name (namedEntries z.archive), ?_, ?_⟩
  · simp only [PathFileHandler.get_file_if_exists]
    rw [← hsame]
  · cases hl : List.lookup name (files_by_name_scan z.archive 0) with
    | none =>
      have h0 := (scan_lookup_spec z.archive name 0).1 hl
      simp only [ZipHandler.get_file_if_exists, hfbn, hl, h0]
    | some j =>
      obtain ⟨h1, h2, h3⟩ := (scan_lookup_spec z.archive name 0).2 j hl
      simp only [Nat.sub_zero] at h2 h3
      cases harc : z.archive.get? j with
      | none =>
        exact absurd (List.get?_eq_none.mp harc) (by omega)
      | some e =>
        rw [harc] at h3
        simp only [Option.map_some'] at h3
        simp only [ZipHandler.get_file_if_exists, hfbn, hl, harc]
        rw [← h3]

/-- A concrete directory used to witness the claim C1 theorem. -/
def sampleDir : PathFileHandler :=
  ⟨"data", [("stops.txt", [104, 105]), ("lines.txt", [10])]⟩

/-- A concrete archive equivalent to `sampleDir`: its first entry sits in an
internal sub-directory, and its second entry's internal path carries a
trailing separator, which `Path::file_name` ignores (base name
`lines.txt`). -/
def sampleZip : ZipHandler :=
  ⟨[("inner/stops.txt", [104, 105]), ("sub/lines.txt/", [10])], "data.zip"⟩

/-- Claim C1 witness: the uniform-access theorem applied to the concrete
directory/archive pair, on a name found through differing internal paths and
on a name whose archive entry has a trailing separator. -/
theorem file_source_uniform_access_witness :
    (PathFileHandler.get_file_if_exists sampleDir "stops.txt" =
       .ok (some [104, 105], "data/stops.txt") ∧
     ZipHandler.get_file_if_exists sampleZip "stops.txt" =
       .ok (some [104, 105], "data.zip/stops.txt")) ∧
    ZipHandler.get_file_if_exists sampleZip "lines.txt" =
      .ok (some [10], "data.zip/lines.txt") := by
  constructor
  · obtain ⟨c, hd, hz⟩ := file_source_uniform_access sampleDir sampleZip
      "stops.txt" (by decide) (by decide)
    have heval : PathFileHandler.get_file_if_exists sampleDir "stops.txt" =
        Except.ok (some [104, 105], "data/stops.txt") := rfl
    have hc : some [104, 105] = c := by
      injection heval.symm.trans hd with hp
      exact congrArg Prod.fst hp
    rw [← hc] at hz
    exact ⟨heval, hz.trans rfl⟩
  · obtain ⟨c, hd, hz⟩ := file_source_uniform_access sampleDir sampleZip
      "lines.txt" (by decide) (by decide)
    have heval : PathFileHandler.get_file_if_exists sampleDir "lines.txt" =
        Except.ok (some [10], "data/lines.txt") := rfl
    have hc : some [10] = c := by
      injection heval.symm.trans hd with hp
      exact congrArg Prod.fst hp
    rw [← hc] at hz
    exact hz.trans rfl
